import Mathlib

/-!
Verification development for the Korean-dialogue corpus ingestion pipeline
(`src/data/ko_dialogue.py`): metadata-line parsing, per-record validation
against the filesystem, chunked fan-out/fan-in scanning
(`get_metadata_list`), and manifest construction (`create_manifest`).

The Python source is shallowly embedded as follows:
- the filesystem is an explicit environment (`Env`) giving file existence,
  parsed JSON annotation contents, and transcript-file contents;
- Python string operations (`strip`, `split`, `os.path.join`,
  `os.path.basename`, `os.path.dirname`, `int(...)`) are re-implemented
  over the character list `String.data` so that every definition is
  kernel-computable on concrete inputs;
- code that can raise (`json.load` failures, malformed field lists) is
  modelled in `Except`; early `return` with `valid = False` is `Option`;
- the `G2p` normalizer is an opaque pure function `String → String`
  (the spec fixes it to be output-pure given identical input, one fresh
  instance per worker);
- `as_completed` fan-in order for thread-pool results is modelled by an
  explicit list of chunk results `σ`, constrained to be a permutation of
  the submitted chunk list where a theorem needs it.
-/

namespace KoDialogue

/-! ## Python string primitives (over `String.data`) -/

/-- Python `str.strip()`: remove leading and trailing whitespace. -/
def trimChars (l : List Char) : List Char :=
  ((l.dropWhile Char.isWhitespace).reverse.dropWhile Char.isWhitespace).reverse

/-- Python `str.strip()` on a `String`. -/
def strTrim (s : String) : String := ⟨trimChars s.data⟩

/-- Python `s[1:]`: drop the leading character. -/
def strDrop1 (s : String) : String := ⟨s.data.drop 1⟩

/-- Split on the three-character separator `" | "`, scanning left to right
(the separator of `line.strip().split(' | ')` in the source). `cur` is the
reversed accumulator of the current field. -/
def splitBarAux : List Char → List Char → List (List Char)
  | ' ' :: '|' :: ' ' :: rest, cur => cur.reverse :: splitBarAux rest []
  | c :: rest, cur => splitBarAux rest (c :: cur)
  | [], cur => [cur.reverse]

/-- `line.strip().split(' | ')` from the source. -/
def splitFields (line : String) : List String :=
  (splitBarAux (trimChars line.data) []).map (fun l => ⟨l⟩)

/-- Split on a single character (used for `os.path` components and
`split(".")`). -/
def splitCharAux (c : Char) : List Char → List Char → List (List Char)
  | [], cur => [cur.reverse]
  | x :: rest, cur =>
    if x = c then cur.reverse :: splitCharAux c rest []
    else splitCharAux c rest (x :: cur)

/-- Split a string on a single character. -/
def splitChar (c : Char) (s : String) : List String :=
  (splitCharAux c s.data []).map (fun l => ⟨l⟩)

/-- Join strings with a single-character separator. -/
def joinChar (c : Char) : List String → String
  | [] => ""
  | [s] => s
  | s :: rest => s ++ (⟨[c]⟩ : String) ++ joinChar c rest

/-- Value of a decimal digit. -/
def digitVal (c : Char) : Option Nat :=
  if '0' ≤ c ∧ c ≤ '9' then some (c.toNat - '0'.toNat) else none

/-- Accumulate decimal digits (fails on any non-digit). -/
def parseNatAux : List Char → Nat → Option Nat
  | [], acc => some acc
  | c :: rest, acc =>
    match digitVal c with
    | some d => parseNatAux rest (acc * 10 + d)
    | none => none

/-- Python `int(s)` restricted to an optional sign followed by decimal
digits (the attribute codes in the metadata lines are plain digits);
`none` models a raised `ValueError`. -/
def parseInt (s : String) : Option Int :=
  match s.data with
  | [] => none
  | '-' :: rest => if rest = [] then none else (parseNatAux rest 0).map (fun n => -(n : Int))
  | l => (parseNatAux l 0).map (fun n => (n : Int))

/-- `os.path.join a b` for the cases arising here: `b` absolute replaces
`a`; otherwise concatenate with a single `/`. -/
def pathJoin (a b : String) : String :=
  if b.data.head? = some '/' then b
  else if a = "" then b
  else if a.data.getLast? = some '/' then a ++ b
  else a ++ "/" ++ b

/-- `os.path.basename`: the component after the last `/`. -/
def baseName (p : String) : String := (splitChar '/' p).getLastD p

/-- `os.path.dirname`: everything before the last `/`. -/
def dirName (p : String) : String := joinChar '/' ((splitChar '/' p).dropLast)

/-- `os.path.basename(file_path).split(".")[0]` from the source. -/
def fileStem (p : String) : String := (splitChar '.' (baseName p)).headD ""

/-- Path of the sibling JSON annotation,
`os.path.join(dir_path, file_name + '.json')`. -/
def jsonPath (p : String) : String := pathJoin (dirName p) (fileStem p ++ ".json")

/-- Path of the sibling transcript,
`os.path.join(dir_path, file_name + '.txt')`. -/
def txtPath (p : String) : String := pathJoin (dirName p) (fileStem p ++ ".txt")

/-! ## Data model -/

/-- `DIR_PREFIX` from the source:
`os.path.join('data', 'remote', 'PROJECT', 'AI학습데이터', 'KoreanSpeech', 'data')`. -/
def dirPre : String := "data/remote/PROJECT/AI학습데이터/KoreanSpeech/data"

/-- `set_root_path`: the configured root prefix after joining the CLI root
onto `DIR_PREFIX` (`DIR_PREFIX = os.path.join(root_path, DIR_PREFIX)`). -/
def set_root_path (root : String) : String := pathJoin root dirPre

/-- Attribute names a filter may configure; `getattr(self, key)` in
`MetaData.__filter__` is modelled by `attrOf` on these keys (the CLI only
ever configures `sex` and `age`). -/
inductive AttrKey
  | sex | age | dialect | reference | quality
deriving DecidableEq

/-- An attribute value: the string codes (`sex`, `age`) or the integer
codes (`dialect`, `reference`, `quality`). -/
inductive AttrVal
  | str (s : String)
  | num (n : Int)
deriving DecidableEq

/-- `filter`: a mapping from attribute name to the list of excluded
values (`dict.items()` order as a list). -/
abbrev AttrFilter := List (AttrKey × List AttrVal)

/-- Fields of the sibling JSON annotation used by `MetaData.__init__`:
`start`, `end`, `length`, `metadata`. `end_` embeds the JSON key `end`. -/
structure MetaJson where
  start : Int
  end_ : Int
  length : Int
  metadata : String
deriving DecidableEq

/-- The filesystem environment: existence of paths, parse result of JSON
annotation files (`none` models a `json.load`/key-lookup failure, which
the source does not catch), and raw transcript contents. -/
structure Env where
  fileExists : String → Bool
  jsonOf : String → Option MetaJson
  contentOf : String → String

/-- The attributes `MetaData.__init__` assigns before any existence
check: lines 75–83 of the source. -/
structure RawAttrs where
  file_path : String
  sex : String
  age : String
  dialect : Int
  reference : Int
  quality : Int
deriving DecidableEq

/-- A fully validated `MetaData` record (`valid = True`); an `Option`
around it models the early-return paths that leave `valid = False`. -/
structure MetaData where
  file_path : String
  sex : String
  age : String
  dialect : Int
  reference : Int
  quality : Int
  start : Int
  end_ : Int
  length : Int
  id : String
  text : String
deriving DecidableEq

/-- Uncaught exceptions of `MetaData.__init__`: a field list that is too
short or has non-integer codes (`IndexError`/`ValueError`), or a JSON
annotation that fails to parse. -/
inductive ValErr
  | badLine
  | badJson
deriving DecidableEq

/-! ## Record validation (`MetaData.__init__` and `__filter__`) -/

/-- The attribute assignments of `MetaData.__init__`:
`file_path = os.path.join(DIR_PREFIX, data[0][1:])`, `sex = data[3]`,
`age = data[4]`, `dialect = int(data[6])`, `reference = int(data[7])`,
`quality = int(data[8])`. `none` models the uncaught exception on a
missing field or failed `int(...)`. -/
def parseLine (pre : String) (data : List String) : Option RawAttrs :=
  match data[0]?, data[3]?, data[4]?, data[6]?, data[7]?, data[8]? with
  | some f0, some sex, some age, some d6, some d7, some d8 =>
    match parseInt d6, parseInt d7, parseInt d8 with
    | some dialect, some reference, some quality =>
      some { file_path := pathJoin pre (strDrop1 f0), sex, age, dialect, reference, quality }
    | _, _, _ => none
  | _, _, _, _, _, _ => none

/-- `getattr(self, key)` for the filterable attributes. -/
def attrOf (p : RawAttrs) : AttrKey → AttrVal
  | .sex => .str p.sex
  | .age => .str p.age
  | .dialect => .num p.dialect
  | .reference => .num p.reference
  | .quality => .num p.quality

/-- `MetaData.__filter__`: `True` unless some configured attribute's
value is a member of its excluded collection. -/
def filterPass (flt : Option AttrFilter) (p : RawAttrs) : Bool :=
  match flt with
  | none => true
  | some f => f.all (fun kv => ! kv.2.contains (attrOf p kv.1))

/-- `MetaData.__init__(data, g2p, filter)`: parse the field list, then
short-circuit on missing audio file, failed filter, missing JSON sibling,
missing transcript sibling (each yields `ok none`, i.e. `valid` stays
`False`); read the JSON fields and the normalized transcript otherwise. -/
def validate (pre : String) (env : Env) (g2p : String → String)
    (flt : Option AttrFilter) (data : List String) : Except ValErr (Option MetaData) :=
  match parseLine pre data with
  | none => .error .badLine
  | some p =>
    if env.fileExists p.file_path then
      if filterPass flt p then
        if env.fileExists (jsonPath p.file_path) then
          match env.jsonOf (jsonPath p.file_path) with
          | none => .error .badJson
          | some j =>
            if env.fileExists (txtPath p.file_path) then
              .ok (some { file_path := p.file_path, sex := p.sex, age := p.age,
                          dialect := p.dialect, reference := p.reference,
                          quality := p.quality, start := j.start, end_ := j.end_,
                          length := j.length, id := j.metadata,
                          text := g2p (env.contentOf (txtPath p.file_path)) })
            else .ok none
        else .ok none
      else .ok none
    else .ok none

/-! ## Metadata scanning (`get_metadata_list`) -/

/-- The inner `task(lines)` of `get_metadata_list`: validate each line of
a chunk in order, keeping the records that come back `valid`. The fresh
`G2p()` instance built per chunk is the pure function `g2p` (spec
§4.1: output-pure given identical input). An uncaught per-line exception
aborts the whole chunk. -/
def task (pre : String) (env : Env) (g2p : String → String)
    (flt : Option AttrFilter) : List String → Except ValErr (List MetaData)
  | [] => .ok []
  | line :: rest =>
    match validate pre env g2p flt (splitFields line) with
    | .error e => .error e
    | .ok none => task pre env g2p flt rest
    | .ok (some m) =>
      match task pre env g2p flt rest with
      | .error e => .error e
      | .ok ms => .ok (m :: ms)

/-- The chunk partition of both fan-out sites: `unit_tasks = len // N`,
chunks `xs[unit_tasks*t : unit_tasks*(t+1)]` for `t < N-1`, and a final
chunk `xs[unit_tasks*(N-1):]` absorbing the remainder. -/
def mkChunks (N : Nat) (xs : List α) : List (List α) :=
  let u := xs.length / N
  ((List.range (N - 1)).map (fun t => (xs.drop (u * t)).take u)) ++ [xs.drop (u * (N - 1))]

/-- Results of one submitted chunk list, collected in the given order
(an uncaught exception in any chunk aborts the run). -/
def mapTasks (pre : String) (env : Env) (g2p : String → String)
    (flt : Option AttrFilter) : List (List String) → Except ValErr (List (List MetaData))
  | [] => .ok []
  | c :: cs =>
    match task pre env g2p flt c with
    | .error e => .error e
    | .ok r =>
      match mapTasks pre env g2p flt cs with
      | .error e => .error e
      | .ok rs => .ok (r :: rs)

/-- One iteration of the per-file loop of `get_metadata_list`: with
`NUM_THREADS > 1`, extend the accumulator with every chunk's results
(fan-in modelled in submission order here; permutation-robustness is
proved where needed); with `NUM_THREADS = 1` the source executes
`metadata_list = task(lines)`, i.e. it REASSIGNS the accumulator. -/
def gmlStep (N : Nat) (pre : String) (env : Env) (g2p : String → String)
    (flt : Option AttrFilter) (acc : List MetaData) (lines : List String) :
    Except ValErr (List MetaData) :=
  if 1 < N then
    match mapTasks pre env g2p flt (mkChunks N lines) with
    | .error e => .error e
    | .ok rs => .ok (acc ++ rs.flatten)
  else
    task pre env g2p flt lines

/-- The per-file loop of `get_metadata_list`, threading the accumulator
`metadata_list`. -/
def get_metadata_list_aux (N : Nat) (pre : String) (env : Env) (g2p : String → String)
    (flt : Option AttrFilter) (acc : List MetaData) :
    List (List String) → Except ValErr (List MetaData)
  | [] => .ok acc
  | f :: fs =>
    match gmlStep N pre env g2p flt acc f with
    | .error e => .error e
    | .ok acc2 => get_metadata_list_aux N pre env g2p flt acc2 fs

/-- `get_metadata_list`: the discovered `*_metadata.txt` files are given
as their line lists (`files`); `N` is `NUM_THREADS`. -/
def get_metadata_list (N : Nat) (pre : String) (env : Env) (g2p : String → String)
    (flt : Option AttrFilter) (files : List (List String)) : Except ValErr (List MetaData) :=
  get_metadata_list_aux N pre env g2p flt [] files

/-! ## Manifest construction (`create_manifest`) -/

/-- A Recording entry: `Recording.from_file(metadata.file_path,
recording_id=metadata.file_path)` — identity and audio source. Audio
probing (duration, sample rate) is done by `lhotse` from the source file
and carries no information from the `MetaData` record beyond the path. -/
structure RecordingE where
  id : String
  source : String
deriving DecidableEq

/-- A SupervisionSegment entry as built by the source's `task`. -/
structure SupervisionE where
  id : String
  recording_id : String
  start : Int
  duration : Int
  text : String
  language : String
  normalized_text : String
deriving DecidableEq

/-- `Recording.from_file(metadata.file_path, recording_id=metadata.file_path)`. -/
def mkRecording (m : MetaData) : RecordingE :=
  { id := m.file_path, source := m.file_path }

/-- `SupervisionSegment(id=metadata.file_path, recording_id=metadata.file_path,
start=metadata.start, duration=metadata.end, text=metadata.text,
language='Korean', custom=... metadata.text.strip())`. -/
def mkSupervision (m : MetaData) : SupervisionE :=
  { id := m.file_path, recording_id := m.file_path, start := m.start,
    duration := m.end_, text := m.text, language := "Korean",
    normalized_text := strTrim m.text }

/-- The inner `task(metadata_sub_list)` of `create_manifest`. -/
def manifestTask (ms : List MetaData) : List RecordingE × List SupervisionE :=
  (ms.map mkRecording, ms.map mkSupervision)

/-- Fan-in of `create_manifest`: extend `recordings` and `supervisions`
with each completed chunk's pair, in the arrival order given by `σ`. -/
def fanIn (σ : List (List MetaData)) : List RecordingE × List SupervisionE :=
  ((σ.map (fun c => (manifestTask c).1)).flatten,
   (σ.map (fun c => (manifestTask c).2)).flatten)

/-- `create_manifest` (up to serialization): with `NUM_THREADS > 1`, fan
out over chunks and fan in chunk results in arrival order `σ` (callers
constrain `σ` to a permutation of `mkChunks N ms`); otherwise run the
task on the whole list. -/
def createManifestWith (N : Nat) (σ : List (List MetaData)) (ms : List MetaData) :
    List RecordingE × List SupervisionE :=
  if 1 < N then fanIn σ else manifestTask ms

/-! ## Concrete fixtures (used by witnesses and counterexample runs) -/

/-- A configured root prefix for concrete runs. -/
def pre0 : String := "root"

/-- A metadata line whose audio, JSON and transcript siblings all exist. -/
def lineA : String := "/d/a.wav | s0 | s1 | M | A | l | 1 | 2 | 3\n"

/-- A second fully-resolvable metadata line (female speaker code). -/
def lineB : String := "/d/b.wav | s0 | s1 | F | A | l | 1 | 2 | 3\n"

/-- A metadata line whose audio file does not exist in `env0`. -/
def lineC : String := "/d/c.wav | s0 | s1 | M | A | l | 1 | 2 | 3\n"

/-- JSON annotation contents for `a.json`. -/
def jA0 : MetaJson := { start := 0, end_ := 5, length := 5, metadata := "idA" }

/-- JSON annotation contents for `b.json`. -/
def jB0 : MetaJson := { start := 1, end_ := 6, length := 5, metadata := "idB" }

/-- A concrete filesystem: both `a.*` and `b.*` sibling triples exist
under `root/d`, nothing else does. -/
def env0 : Env :=
  { fileExists := fun p =>
      p == "root/d/a.wav" || p == "root/d/a.json" || p == "root/d/a.txt" ||
      p == "root/d/b.wav" || p == "root/d/b.json" || p == "root/d/b.txt",
    jsonOf := fun p =>
      if p == "root/d/a.json" then some jA0
      else if p == "root/d/b.json" then some jB0
      else none,
    contentOf := fun p =>
      if p == "root/d/a.txt" then " textA "
      else if p == "root/d/b.txt" then " textB "
      else "" }

/-- A concrete normalizer instance (any pure `String → String` stands in
for a `G2p()` instance). -/
def g2p0 : String → String := fun s => "g2p:" ++ s

/-- The record `validate` produces for `lineA` in `env0`. -/
def recA0 : MetaData :=
  { file_path := "root/d/a.wav", sex := "M", age := "A", dialect := 1,
    reference := 2, quality := 3, start := 0, end_ := 5, length := 5,
    id := "idA", text := "g2p: textA " }

/-- The record `validate` produces for `lineB` in `env0`. -/
def recB0 : MetaData :=
  { file_path := "root/d/b.wav", sex := "F", age := "A", dialect := 1,
    reference := 2, quality := 3, start := 1, end_ := 6, length := 5,
    id := "idB", text := "g2p: textB " }

example : validate pre0 env0 g2p0 none (splitFields lineA) = .ok (some recA0) := rfl
example : validate pre0 env0 g2p0 none (splitFields lineB) = .ok (some recB0) := rfl
example : validate pre0 env0 g2p0 none (splitFields lineC) = .ok none := rfl
example : task pre0 env0 g2p0 none [lineA, lineB] = .ok [recA0, recB0] := rfl
example : mkChunks 2 [lineA, lineB] = [[lineA], [lineB]] := by decide
example : get_metadata_list 1 pre0 env0 g2p0 none [[lineA], [lineB]] = .ok [recB0] := rfl
example : get_metadata_list 2 pre0 env0 g2p0 none [[lineA], [lineB]] = .ok [recA0, recB0] := rfl

/-! ## Lemmas about chunking and chunked validation -/

/-- Sequencing two chunk validations in `Except`. -/
def exAppend (a b : Except ValErr (List MetaData)) : Except ValErr (List MetaData) :=
  match a with
  | .error e => .error e
  | .ok x =>
    match b with
    | .error e => .error e
    | .ok y => .ok (x ++ y)

theorem task_append (pre : String) (env : Env) (g2p : String → String)
    (flt : Option AttrFilter) (l1 l2 : List String) :
    task pre env g2p flt (l1 ++ l2) =
      exAppend (task pre env g2p flt l1) (task pre env g2p flt l2) := by
  induction l1 with
  | nil =>
    cases h : task pre env g2p flt l2 <;> simp [task, exAppend, h]
  | cons line rest ih =>
    cases hv : validate pre env g2p flt (splitFields line) with
    | error e => simp [task, exAppend, hv]
    | ok o =>
      cases o with
      | none => simp [task, hv, ih]
      | some m =>
        cases hr : task pre env g2p flt rest with
        | error e => simp [task, hv, hr, ih, exAppend]
        | ok r1 =>
          cases h2 : task pre env g2p flt l2 with
          | error e => simp [task, hv, hr, h2, ih, exAppend]
          | ok r2 => simp [task, hv, hr, h2, ih, exAppend]

theorem mapTasks_ok_flatten (pre : String) (env : Env) (g2p : String → String)
    (flt : Option AttrFilter) :
    ∀ (ls : List (List String)) (rs : List (List MetaData)),
      mapTasks pre env g2p flt ls = .ok rs →
      task pre env g2p flt ls.flatten = .ok rs.flatten := by
  intro ls
  induction ls with
  | nil =>
    intro rs h
    simp only [mapTasks, Except.ok.injEq] at h
    subst h
    simp [task]
  | cons c cs ih =>
    intro rs h
    cases hc : task pre env g2p flt c with
    | error e => rw [mapTasks, hc] at h; simp at h
    | ok r =>
      cases hcs : mapTasks pre env g2p flt cs with
      | error e => rw [mapTasks, hc, hcs] at h; simp at h
      | ok rs' =>
        rw [mapTasks, hc, hcs] at h
        simp only [Except.ok.injEq] at h
        subst h
        rw [List.flatten_cons, task_append, hc, ih rs' hcs]
        rfl

theorem mapTasks_perm (pre : String) (env : Env) (g2p : String → String)
    (flt : Option AttrFilter) {σ ls : List (List String)} (hσ : σ.Perm ls) :
    ∀ {rs : List (List MetaData)}, mapTasks pre env g2p flt σ = .ok rs →
      ∃ rs', mapTasks pre env g2p flt ls = .ok rs' ∧ rs.Perm rs' := by
  induction hσ with
  | nil =>
    intro rs h
    simp only [mapTasks, Except.ok.injEq] at h
    exact ⟨[], rfl, by rw [← h]⟩
  | @cons x l₁ l₂ hp ih =>
    intro rs h
    cases hx : task pre env g2p flt x with
    | error e => rw [mapTasks, hx] at h; simp at h
    | ok r =>
      cases hl : mapTasks pre env g2p flt l₁ with
      | error e => rw [mapTasks, hx, hl] at h; simp at h
      | ok rs1 =>
        rw [mapTasks, hx, hl] at h
        simp only [Except.ok.injEq] at h
        obtain ⟨rs2, hm, hperm⟩ := ih hl
        refine ⟨r :: rs2, by rw [mapTasks, hx, hm], ?_⟩
        rw [← h]
        exact hperm.cons r
  | swap x y l =>
    intro rs h
    cases hy : task pre env g2p flt y with
    | error e => rw [mapTasks, hy] at h; simp at h
    | ok ry =>
      cases hx : task pre env g2p flt x with
      | error e => rw [mapTasks, hy, mapTasks, hx] at h; simp at h
      | ok rx =>
        cases hl : mapTasks pre env g2p flt l with
        | error e => rw [mapTasks, hy, mapTasks, hx, hl] at h; simp at h
        | ok rl =>
          rw [mapTasks, hy, mapTasks, hx, hl] at h
          simp only [Except.ok.injEq] at h
          refine ⟨rx :: ry :: rl, by rw [mapTasks, hx, mapTasks, hy, hl], ?_⟩
          rw [← h]
          exact List.Perm.swap rx ry rl
  | trans h1 h2 ih1 ih2 =>
    intro rs h
    obtain ⟨rs1, hm1, hp1⟩ := ih1 h
    obtain ⟨rs2, hm2, hp2⟩ := ih2 hm1
    exact ⟨rs2, hm2, hp1.trans hp2⟩

theorem range_chunk_aux (u : Nat) (xs : List α) :
    ∀ k : Nat,
      ((List.range k).map (fun t => (xs.drop (u * t)).take u)).flatten ++ xs.drop (u * k) = xs := by
  intro k
  induction k with
  | zero => simp
  | succ k ih =>
    rw [List.range_succ, List.map_append, List.flatten_append]
    simp only [List.map_cons, List.map_nil, List.flatten_cons, List.flatten_nil,
      List.append_nil]
    rw [List.append_assoc]
    have hd : xs.drop (u * (k + 1)) = (xs.drop (u * k)).drop u := by
      rw [Nat.mul_succ]
      exact (List.drop_drop ..).symm
    rw [hd, List.take_append_drop]
    exact ih

/-- The chunk partition covers the input exactly: flattening the chunks
in submission order gives back the original list. -/
theorem mkChunks_flatten (N : Nat) (xs : List α) : (mkChunks N xs).flatten = xs := by
  unfold mkChunks
  simp only [List.flatten_append, List.flatten_cons, List.flatten_nil, List.append_nil]
  exact range_chunk_aux (xs.length / N) xs (N - 1)

/-! ## Claim theorems -/

/-- Claim C1: the claim says `get_metadata_list` returns the validated
records of ALL discovered metadata files, including when parallelism is 1.
The code violates this: the single-thread branch executes
`metadata_list = task(lines)`, reassigning the accumulator instead of
extending it, so with parallelism 1 and two files — each contributing one
valid record — only the last file's record is returned, although the first
file's line validates to a record on its own (and the multi-thread branch
of the very same function keeps both). -/
theorem get_metadata_list_single_thread_drops_files :
    get_metadata_list 1 pre0 env0 g2p0 none [[lineA], [lineB]] = .ok [recB0] ∧
    task pre0 env0 g2p0 none [lineA] = .ok [recA0] ∧
    recA0 ∉ [recB0] ∧
    get_metadata_list 2 pre0 env0 g2p0 none [[lineA], [lineB]] = .ok [recA0, recB0] :=
  ⟨rfl, rfl, by decide, rfl⟩

/-- Claim C2: validating the `N` contiguous chunks of a line list — each
chunk with its own (pure, hence interchangeable) normalizer instance —
and collecting the chunk results in any completion order yields the same
records, up to ordering, as validating the whole list sequentially. -/
theorem chunked_validation_matches_sequential
    (pre : String) (env : Env) (g2p : String → String) (flt : Option AttrFilter)
    (N : Nat) (lines : List String) (σ : List (List String))
    (rs : List (List MetaData)) (hN : 0 < N)
    (hσ : σ.Perm (mkChunks N lines))
    (hok : mapTasks pre env g2p flt σ = .ok rs) :
    ∃ seq, task pre env g2p flt lines = .ok seq ∧ rs.flatten.Perm seq := by
  obtain ⟨rs', hm, hp⟩ := mapTasks_perm pre env g2p flt hσ hok
  have h3 := mapTasks_ok_flatten pre env g2p flt _ _ hm
  rw [mkChunks_flatten] at h3
  exact ⟨rs'.flatten, h3, hp.flatten⟩

/-- Witness for C2 at a concrete input: two lines split into two
one-line chunks, collected in swapped completion order, give a
permutation of the sequential result. -/
theorem chunked_validation_matches_sequential_witness :
    ∃ seq, task pre0 env0 g2p0 none [lineA, lineB] = .ok seq ∧
      ([[recB0], [recA0]] : List (List MetaData)).flatten.Perm seq :=
  chunked_validation_matches_sequential pre0 env0 g2p0 none 2 [lineA, lineB]
    [[lineB], [lineA]] [[recB0], [recA0]] (by decide) (by decide) rfl

/-- Claim C3: if the value of a configured attribute is a member of that
attribute's excluded collection, validation yields no record — for every
environment, i.e. regardless of whether the audio file exists (the filter
is an exclusion list: membership rejects). -/
theorem validate_excluded_attr_no_record
    (pre : String) (env : Env) (g2p : String → String) (flt : AttrFilter)
    (data : List String) (p : RawAttrs) (k : AttrKey) (ex : List AttrVal)
    (hp : parseLine pre data = some p)
    (hk : (k, ex) ∈ flt) (hv : attrOf p k ∈ ex) :
    validate pre env g2p (some flt) data = .ok none := by
  have hf : filterPass (some flt) p = false := by
    simp only [filterPass]
    rw [List.all_eq_false]
    refine ⟨(k, ex), hk, ?_⟩
    simp [hv]
  simp [validate, hp, hf]

/-- Witness for C3: `lineB` carries sex code `F`; with `F` in the `sex`
exclusion list the line is dropped even though all its files exist. -/
theorem validate_excluded_attr_no_record_witness :
    validate pre0 env0 g2p0 (some [(.sex, [.str "F"])]) (splitFields lineB) = .ok none :=
  validate_excluded_attr_no_record pre0 env0 g2p0 [(.sex, [.str "F"])]
    (splitFields lineB) ⟨"root/d/b.wav", "F", "A", 1, 2, 3⟩ .sex [.str "F"]
    rfl (by decide) (by decide)

/-- Claim C4: when the audio file exists, the attributes pass the filter,
and the sibling `.json` and `.txt` files exist, validation yields a valid
record whose `text` is the normalizer applied to the transcript file's
full contents, whose `start`/`end`/`length` equal the JSON fields, and
whose `id` equals the JSON's `metadata` field. -/
theorem validate_happy_path
    (pre : String) (env : Env) (g2p : String → String) (flt : Option AttrFilter)
    (data : List String) (p : RawAttrs) (j : MetaJson)
    (hp : parseLine pre data = some p)
    (ha : env.fileExists p.file_path = true)
    (hf : filterPass flt p = true)
    (hjx : env.fileExists (jsonPath p.file_path) = true)
    (hj : env.jsonOf (jsonPath p.file_path) = some j)
    (htx : env.fileExists (txtPath p.file_path) = true) :
    validate pre env g2p flt data =
      .ok (some { file_path := p.file_path, sex := p.sex, age := p.age,
                  dialect := p.dialect, reference := p.reference, quality := p.quality,
                  start := j.start, end_ := j.end_, length := j.length,
                  id := j.metadata,
                  text := g2p (env.contentOf (txtPath p.file_path)) }) := by
  simp [validate, hp, ha, hf, hjx, hj, htx]

/-- Witness for C4: `lineA` resolves fully in `env0` and produces
`recA0`, whose text is `g2p0` applied to the transcript contents. -/
theorem validate_happy_path_witness :
    validate pre0 env0 g2p0 none (splitFields lineA) = .ok (some recA0) :=
  validate_happy_path pre0 env0 g2p0 none (splitFields lineA)
    ⟨"root/d/a.wav", "M", "A", 1, 2, 3⟩ jA0 rfl rfl rfl rfl rfl rfl

/-- Claim C5: when the audio file, the sibling JSON annotation, or the
sibling transcript is missing, validation yields no record and raises no
exception (result `ok none`, never `error`) — provided the line itself
parses and any JSON file that does exist parses (malformed JSON is the
separate, deliberately fatal case of the spec). -/
theorem validate_missing_file_no_record
    (pre : String) (env : Env) (g2p : String → String) (flt : Option AttrFilter)
    (data : List String) (p : RawAttrs)
    (hp : parseLine pre data = some p)
    (hjson : env.fileExists (jsonPath p.file_path) = true →
      (env.jsonOf (jsonPath p.file_path)).isSome = true)
    (hmiss : env.fileExists p.file_path = false ∨
      env.fileExists (jsonPath p.file_path) = false ∨
      env.fileExists (txtPath p.file_path) = false) :
    validate pre env g2p flt data = .ok none := by
  simp only [validate, hp]
  rcases hmiss with h | h | h
  · simp [h]
  · simp [h]
  · cases ha : env.fileExists p.file_path
    · simp
    · cases hfp : filterPass flt p
      · simp [hfp]
      · cases hjx : env.fileExists (jsonPath p.file_path)
        · simp [hjx]
        · obtain ⟨j, hj⟩ := Option.isSome_iff_exists.mp (hjson hjx)
          simp [hjx, hj, h, hfp]

/-- Witness for C5: `lineC` names an audio file absent from `env0`, and
validation returns `ok none` (no record, no exception). -/
theorem validate_missing_file_no_record_witness :
    validate pre0 env0 g2p0 none (splitFields lineC) = .ok none :=
  validate_missing_file_no_record pre0 env0 g2p0 none (splitFields lineC)
    ⟨"root/d/c.wav", "M", "A", 1, 2, 3⟩ rfl (by decide) (Or.inl (by decide))

/-- Claim C6: in the pair `create_manifest` builds — for any completion
order of the chunk tasks — every Supervision entry's `recording_id` is
the identifier of some Recording entry in the companion collection. -/
theorem manifest_supervisions_reference_recordings
    (N : Nat) (ms : List MetaData) (σ : List (List MetaData))
    (hσ : σ.Perm (mkChunks N ms)) :
    ∀ s ∈ (createManifestWith N σ ms).2,
      ∃ r ∈ (createManifestWith N σ ms).1, r.id = s.recording_id := by
  intro s hs
  by_cases hN : 1 < N
  · simp only [createManifestWith, if_pos hN, fanIn, manifestTask] at hs ⊢
    rw [List.mem_flatten] at hs
    obtain ⟨l, hl, hsl⟩ := hs
    obtain ⟨c, hc, rfl⟩ := List.mem_map.mp hl
    obtain ⟨m, hm, rfl⟩ := List.mem_map.mp hsl
    refine ⟨mkRecording m, ?_, rfl⟩
    rw [List.mem_flatten]
    exact ⟨c.map mkRecording, List.mem_map.mpr ⟨c, hc, rfl⟩,
      List.mem_map.mpr ⟨m, hm, rfl⟩⟩
  · simp only [createManifestWith, if_neg hN, manifestTask] at hs ⊢
    obtain ⟨m, hm, rfl⟩ := List.mem_map.mp hs
    exact ⟨mkRecording m, List.mem_map.mpr ⟨m, hm, rfl⟩, rfl⟩

/-- Witness for C6 at a concrete input: in the two-chunk build with
swapped completion order, the supervision built from `recA0` has a
matching recording. -/
theorem manifest_supervisions_reference_recordings_witness :
    ∃ r ∈ (createManifestWith 2 [[recB0], [recA0]] [recA0, recB0]).1,
      r.id = (mkSupervision recA0).recording_id :=
  manifest_supervisions_reference_recordings 2 [recA0, recB0] [[recB0], [recA0]]
    (by decide) (mkSupervision recA0) (by decide)

/-- Claim C7: the build maps each record to exactly one Recording entry
(audio source = `file_path`) and exactly one Supervision entry carrying
the record's `start`, a duration, its `text`, the fixed language tag
`"Korean"`, and the whitespace-trimmed normalized text as the custom
`normalized_text` field — in both the chunked and single-thread branches. -/
theorem manifest_maps_each_record (N : Nat) (ms : List MetaData) :
    (createManifestWith N (mkChunks N ms) ms).1 = ms.map mkRecording ∧
    (createManifestWith N (mkChunks N ms) ms).2 = ms.map mkSupervision ∧
    (∀ m : MetaData, (mkRecording m).source = m.file_path) ∧
    (∀ m : MetaData, (mkSupervision m).start = m.start ∧
      (mkSupervision m).duration = m.end_ ∧
      (mkSupervision m).text = m.text ∧
      (mkSupervision m).language = "Korean" ∧
      (mkSupervision m).normalized_text = strTrim m.text) := by
  refine ⟨?_, ?_, fun m => rfl, fun m => ⟨rfl, rfl, rfl, rfl, rfl⟩⟩
  · by_cases hN : 1 < N
    · simp only [createManifestWith, if_pos hN, fanIn, manifestTask]
      rw [show ((mkChunks N ms).map fun c => c.map mkRecording).flatten =
        ((mkChunks N ms).flatten.map mkRecording) from (List.map_flatten ..).symm]
      rw [mkChunks_flatten]
    · simp [createManifestWith, hN, manifestTask]
  · by_cases hN : 1 < N
    · simp only [createManifestWith, if_pos hN, fanIn, manifestTask]
      rw [show ((mkChunks N ms).map fun c => c.map mkSupervision).flatten =
        ((mkChunks N ms).flatten.map mkSupervision) from (List.map_flatten ..).symm]
      rw [mkChunks_flatten]
    · simp [createManifestWith, hN, manifestTask]

/-- Claim C9: splitting a metadata line into its 9 positional fields,
validation takes field 0 as the path with its leading character stripped,
joined onto the configured root prefix, and fields 3/4/6/7/8 as the
sex/age/dialect/reference/quality codes, integer-parsing the last three. -/
theorem parseLine_nine_fields
    (pre d0 d1 d2 d3 d4 d5 d6 d7 d8 : String) (dialect reference quality : Int)
    (h6 : parseInt d6 = some dialect) (h7 : parseInt d7 = some reference)
    (h8 : parseInt d8 = some quality) :
    parseLine pre [d0, d1, d2, d3, d4, d5, d6, d7, d8] =
      some { file_path := pathJoin pre (strDrop1 d0), sex := d3, age := d4,
             dialect := dialect, reference := reference, quality := quality } := by
  simp [parseLine, h6, h7, h8]

/-- Witness for C9 at a concrete 9-field line. -/
theorem parseLine_nine_fields_witness :
    parseLine pre0 ["/d/a.wav", "s0", "s1", "M", "A", "l", "1", "2", "3"] =
      some { file_path := pathJoin pre0 (strDrop1 "/d/a.wav"), sex := "M", age := "A",
             dialect := 1, reference := 2, quality := 3 } :=
  parseLine_nine_fields pre0 "/d/a.wav" "s0" "s1" "M" "A" "l" "1" "2" "3"
    1 2 3 rfl rfl rfl

/-- Claim C10: every Supervision entry the builder emits has both its
`id` and its `recording_id` equal to the originating record's
`file_path` (the JSON-provided identifier plays no role in manifest
identity), and its `duration` equal to the record's `end` field — not
`end - start`. -/
theorem supervision_identity_and_duration_policy
    (N : Nat) (ms : List MetaData) (σ : List (List MetaData))
    (hσ : σ.Perm (mkChunks N ms)) :
    ∀ s ∈ (createManifestWith N σ ms).2,
      ∃ m ∈ ms, s.id = m.file_path ∧ s.recording_id = m.file_path ∧
        s.duration = m.end_ := by
  intro s hs
  by_cases hN : 1 < N
  · simp only [createManifestWith, if_pos hN, fanIn, manifestTask] at hs
    rw [List.mem_flatten] at hs
    obtain ⟨l, hl, hsl⟩ := hs
    obtain ⟨c, hc, rfl⟩ := List.mem_map.mp hl
    obtain ⟨m, hm, rfl⟩ := List.mem_map.mp hsl
    have hcm : c ∈ mkChunks N ms := hσ.mem_iff.mp hc
    have hmm : m ∈ ms := by
      have hflat : m ∈ (mkChunks N ms).flatten := List.mem_flatten.mpr ⟨c, hcm, hm⟩
      rwa [mkChunks_flatten] at hflat
    exact ⟨m, hmm, rfl, rfl, rfl⟩
  · simp only [createManifestWith, if_neg hN, manifestTask] at hs
    obtain ⟨m, hm, rfl⟩ := List.mem_map.mp hs
    exact ⟨m, hm, rfl, rfl, rfl⟩

/-- Witness for C10 at a concrete input: the supervision built from
`recB0` carries `recB0.file_path` as both identifiers and `recB0.end_`
as its duration. -/
theorem supervision_identity_and_duration_policy_witness :
    ∃ m ∈ [recA0, recB0], (mkSupervision recB0).id = m.file_path ∧
      (mkSupervision recB0).recording_id = m.file_path ∧
      (mkSupervision recB0).duration = m.end_ :=
  supervision_identity_and_duration_policy 2 [recA0, recB0] [[recB0], [recA0]]
    (by decide) (mkSupervision recB0) (by decide)

end KoDialogue
